import Mathlib

/-!
Verification of the `las_processor` corridor-extraction pipeline.

The Python sources (`src/core/geometry.py`, `src/core/processing.py`,
`src/core/file_operations.py`, `src/utils/validators.py`) are shallowly
embedded below.  Coordinates, which the program stores as Python floats,
are idealised as rationals (`ℚ`) for the streaming pipeline so that every
definition is executable, and as reals (`ℝ`) for the trigonometric
corridor construction (`calculate_corridor_polygon`) which uses
`math.atan2 / cos / sin`.

External collaborators are modelled explicitly:
* `pyproj.Transformer` becomes a function parameter `T : Nat → Nat → ℚ → ℚ → ℚ × ℚ`
  indexed by source/target CRS codes (a CRS is identified with its EPSG code);
* `shapely`'s `Polygon.contains(Point)` is modelled by `polyContains`:
  strict-interior membership decided by the standard even-odd crossing rule
  together with an explicit boundary exclusion, which is the documented
  GEOS semantics of `contains` for a point argument;
* `shapely`'s `box(...).intersects(polygon)` used by the file selector is
  kept abstract as a Boolean parameter, since the claims about the selector
  concern which files are kept, not rectangle/polygon intersection itself;
* `laspy`'s `chunk_iterator(chunk_size)` is modelled by `chunkIterator`,
  which splits the point list of a file into successive blocks of
  `chunk_size` points.
-/


namespace LasProc

/-- A planar point, as used by the point-in-polygon tests. -/
abbrev Pt : Type := ℚ × ℚ

/-- A polygon, given by its ring of vertices (closing edge implicit),
as in `shapely.geometry.Polygon(corners)`. -/
abbrev Polygon : Type := List Pt

/-- The edges of the vertex ring, including the closing edge from the last
vertex back to the first. -/
def ringEdges {α : Type} (poly : List α) : List (α × α) :=
  poly.zip (poly.rotate 1)

/-- Model of shapely's `polygon.bounds`: the axis-aligned bounding box
`(min_x, min_y, max_x, max_y)` of the vertices. -/
def polyBounds (poly : Polygon) : ℚ × ℚ × ℚ × ℚ :=
  match poly with
  | [] => (0, 0, 0, 0)
  | v :: vs =>
    (vs.foldl (fun a p => min a p.1) v.1,
     vs.foldl (fun a p => min a p.2) v.2,
     vs.foldl (fun a p => max a p.1) v.1,
     vs.foldl (fun a p => max a p.2) v.2)

/-- Does the horizontal ray from `p` in the `+x` direction cross the open
edge `e`?  This is the standard even-odd crossing rule used to model the
exact point-in-polygon test of the external geometry library. -/
def crossesRay (p : Pt) (e : Pt × Pt) : Bool :=
  (decide (e.1.2 > p.2) != decide (e.2.2 > p.2)) &&
    decide (p.1 < e.1.1 + (p.2 - e.1.2) * (e.2.1 - e.1.1) / (e.2.2 - e.1.2))

/-- Is `p` on the closed segment from `e.1` to `e.2`? -/
def onSegment (p : Pt) (e : Pt × Pt) : Bool :=
  decide ((e.2.1 - e.1.1) * (p.2 - e.1.2) = (e.2.2 - e.1.2) * (p.1 - e.1.1)) &&
    decide (min e.1.1 e.2.1 ≤ p.1) && decide (p.1 ≤ max e.1.1 e.2.1) &&
    decide (min e.1.2 e.2.2 ≤ p.2) && decide (p.2 ≤ max e.1.2 e.2.2)

/-- Is `p` on the boundary of the polygon? -/
def onBoundary (poly : Polygon) (p : Pt) : Bool :=
  (ringEdges poly).any (onSegment p)

/-- Model of shapely's `polygon.contains(Point(p))`: `p` lies strictly in
the interior of the polygon — an odd number of ray crossings and not on
the boundary. -/
def polyContains (poly : Polygon) (p : Pt) : Bool :=
  ((ringEdges poly).countP (crossesRay p) % 2 == 1) && !(onBoundary poly p)

/-- The vectorised bounding-box pre-test of `points_in_polygon_chunk`:
`(x >= min_x) & (x <= max_x) & (y >= min_y) & (y <= max_y)`. -/
def inBoundsB (poly : Polygon) (p : Pt) : Bool :=
  decide (p.1 ≥ (polyBounds poly).1) && decide (p.1 ≤ (polyBounds poly).2.2.1) &&
    decide (p.2 ≥ (polyBounds poly).2.1) && decide (p.2 ≤ (polyBounds poly).2.2.2)

/-- Model of NumPy boolean-mask indexing `a[mask]`. -/
def maskFilter {α : Type} : List α → List Bool → List α
  | _, [] => []
  | [], _ => []
  | a :: as, b :: bs => if b then a :: maskFilter as bs else maskFilter as bs

/-- Model of NumPy boolean-mask assignment `result[mask] = values` on an all-`false`
result array: positions where the mask is `true` receive the next value,
all other positions stay `false`. -/
def scatterMask : List Bool → List Bool → List Bool
  | [], _ => []
  | false :: bs, cs => false :: scatterMask bs cs
  | true :: bs, [] => false :: scatterMask bs []
  | true :: bs, c :: cs => c :: scatterMask bs cs

/-- Embedding of `points_in_polygon_chunk` from `src/core/geometry.py`: the two-stage
containment test.  Points outside the polygon's bounding box are rejected
first; the exact test runs only on the surviving candidates and the
results are scattered back into a full-length mask. -/
def points_in_polygon_chunk (x_coords y_coords : List ℚ) (polygon : Polygon) :
    List Bool :=
  let pts := x_coords.zip y_coords
  let points_within_bounds := pts.map (inBoundsB polygon)
  if points_within_bounds.any id = false then
    List.replicate points_within_bounds.length false
  else
    let candidate_points := maskFilter pts points_within_bounds
    let candidate_mask := candidate_points.map (polyContains polygon)
    scatterMask points_within_bounds candidate_mask

/-- The exact containment test applied directly to every point, with no
bounding-box pre-rejection (the reference against which the two-stage
test is compared). -/
def points_in_polygon_direct (x_coords y_coords : List ℚ) (polygon : Polygon) :
    List Bool :=
  (x_coords.zip y_coords).map (polyContains polygon)

/-- Embedding of `transform_polygon` from `src/core/geometry.py`, with the
`pyproj.Transformer` family supplied as the parameter `T`. -/
def transform_polygon (T : Nat → Nat → ℚ → ℚ → ℚ × ℚ) (polygon : Polygon)
    (source_crs target_crs : Nat) : Polygon :=
  if source_crs = target_crs then polygon
  else polygon.map (fun v => T source_crs target_crs v.1 v.2)

/-! ### Embedding of `src/core/processing.py` -/

/-- A LAS point record: position and classification code (the
format-defined extra attributes play no role in the verified claims). -/
structure P where
  x : ℚ
  y : ℚ
  z : ℚ
  classification : Nat
deriving DecidableEq, Repr

/-- A LAS file as the pipeline observes it: name, parsed CRS (EPSG code,
`none` when the header has no CRS), header bounding box, the point
records, and the observable failure modes of the external reader
(`headerError`: `laspy.open`/header parsing raises; `failAtChunk i`: the
chunk iterator raises before yielding chunk `i`).  `onDisk` models
`Path.exists()`. -/
structure LasFile where
  name : String
  crs : Option Nat
  min_x : ℚ
  min_y : ℚ
  max_x : ℚ
  max_y : ℚ
  points : List P
  headerError : Bool
  failAtChunk : Option Nat
  onDisk : Bool
deriving DecidableEq, Repr

/-- Per-file counters of `process_las_file`. -/
structure FileStats where
  points_processed : Nat
  points_within_corridor : Nat
  points_written : Nat
deriving DecidableEq, Repr

/-- The fixed streaming chunk size of `process_las_file`. -/
def chunk_size : Nat := 1000000

/-- Model of `laspy`'s `chunk_iterator(cs)`: split the point list into successive
blocks of `cs` points (every block except possibly the last has exactly
`cs` points). -/
def chunkIterator (cs : Nat) (pts : List P) : List (List P) :=
  if h : pts = [] ∨ cs = 0 then []
  else pts.take cs :: chunkIterator cs (pts.drop cs)
termination_by pts.length
decreasing_by
  push_neg at h
  have h1 : 0 < pts.length := List.length_pos.mpr h.1
  have h2 : 0 < cs := Nat.pos_of_ne_zero h.2
  rw [List.length_drop]
  omega

/-- Model of NumPy fancy indexing `a[np.arange(0, len(a), n)]`: keep every `n`-th
element, starting at index 0. -/
def takeNth {α : Type} (n : Nat) : List α → List α
  | [] => []
  | a :: rest => a :: takeNth n (rest.drop (n - 1))
termination_by l => l.length
decreasing_by
  simp only [List.length_drop, List.length_cons]
  omega

/-- The per-chunk body of `process_las_file`: containment mask, optional
downsampling, optional reprojection of x/y (z untouched).  Returns the
points handed to `writer.write_points` together with the chunk's
in-corridor count. -/
def processChunk (corridor_in_las_crs : Polygon)
    (transformer_to_corridor_crs : Option (ℚ → ℚ → ℚ × ℚ)) (nth_point : Nat)
    (point_chunk : List P) : List P × Nat :=
  let in_corridor := points_in_polygon_chunk (point_chunk.map P.x)
    (point_chunk.map P.y) corridor_in_las_crs
  let num_points_corridor := in_corridor.count true
  if 0 < num_points_corridor then
    let filtered_chunk := maskFilter point_chunk in_corridor
    let filtered_chunk := if 1 < nth_point
      then takeNth nth_point filtered_chunk else filtered_chunk
    let filtered_chunk := match transformer_to_corridor_crs with
      | some t => filtered_chunk.map (fun p =>
          { p with x := (t p.x p.y).1, y := (t p.x p.y).2 })
      | none => filtered_chunk
    (filtered_chunk, num_points_corridor)
  else ([], num_points_corridor)

/-- The chunk loop of `process_las_file`.  `sig` is the cancellation
signal, polled once per chunk at poll index `k`; `failAt` is the chunk
index at which the external reader raises, if any.  Returns the final
stats (`none` on cancellation or error — the file is skipped), the points
flushed to the shared writer (earlier chunks' writes are kept even when a
later chunk cancels or fails), and the next poll index. -/
def processChunks (corridor_in_las_crs : Polygon)
    (trans : Option (ℚ → ℚ → ℚ × ℚ)) (nth_point : Nat) (sig : Nat → Bool)
    (failAt : Option Nat) :
    List (List P) → Nat → Nat → FileStats → Option FileStats × List P × Nat
  | [], _, k, s => (some s, [], k)
  | c :: cs, i, k, s =>
    if failAt = some i then (none, [], k)
    else if sig k then (none, [], k + 1)
    else
      let w := processChunk corridor_in_las_crs trans nth_point c
      let s' : FileStats :=
        { points_processed := s.points_processed + c.length,
          points_within_corridor := s.points_within_corridor + w.2,
          points_written := s.points_written + w.1.length }
      let r := processChunks corridor_in_las_crs trans nth_point sig failAt
        cs (i + 1) (k + 1) s'
      (r.1, w.1 ++ r.2.1, r.2.2)

/-- CRS resolution shared by the selector and the per-file processor:
the file's own CRS, else the configured default, else failure. -/
def resolveCrs (file_crs default_las_crs : Option Nat) : Option Nat :=
  match file_crs with
  | some c => some c
  | none => default_las_crs

/-- Embedding of `process_las_file` from `src/core/processing.py`.  Returns the stats
(`none` when the file is skipped: missing CRS without default, reader
error, or cancellation), the points written to the shared writer, and the
next cancellation poll index. -/
def process_las_file (T : Nat → Nat → ℚ → ℚ → ℚ × ℚ) (las_file : LasFile)
    (corridor_polygon : Polygon) (corridor_crs : Nat) (nth_point : Nat)
    (sig : Nat → Bool) (k : Nat) (default_las_crs : Option Nat) :
    Option FileStats × List P × Nat :=
  if las_file.headerError then (none, [], k)
  else
    match resolveCrs las_file.crs default_las_crs with
    | none => (none, [], k)
    | some las_crs =>
      let corridor_in_las_crs := transform_polygon T corridor_polygon
        corridor_crs las_crs
      let trans : Option (ℚ → ℚ → ℚ × ℚ) :=
        if las_crs = corridor_crs then none else some (T las_crs corridor_crs)
      processChunks corridor_in_las_crs trans nth_point sig
        las_file.failAtChunk (chunkIterator chunk_size las_file.points) 0 k
        { points_processed := 0, points_within_corridor := 0,
          points_written := 0 }

/-- The axis-aligned comparison box a file presents to the selector: its
header bounding box, or — when the file's CRS differs from the corridor
CRS — the envelope of the four reprojected bounding-box corners. -/
def comparisonBox (T : Nat → Nat → ℚ → ℚ → ℚ × ℚ) (las_crs corridor_crs : Nat)
    (min_x min_y max_x max_y : ℚ) : ℚ × ℚ × ℚ × ℚ :=
  if las_crs = corridor_crs then (min_x, min_y, max_x, max_y)
  else
    let c1 := T las_crs corridor_crs min_x min_y
    let c2 := T las_crs corridor_crs min_x max_y
    let c3 := T las_crs corridor_crs max_x min_y
    let c4 := T las_crs corridor_crs max_x max_y
    (min (min c1.1 c2.1) (min c3.1 c4.1),
     min (min c1.2 c2.2) (min c3.2 c4.2),
     max (max c1.1 c2.1) (max c3.1 c4.1),
     max (max c1.2 c2.2) (max c3.2 c4.2))

/-- Embedding of `select_las_files_for_corridor` from `src/core/processing.py`.
`inter` models shapely's `box(...).intersects(corridor_polygon)`. -/
def select_las_files_for_corridor (T : Nat → Nat → ℚ → ℚ → ℚ × ℚ)
    (inter : ℚ × ℚ × ℚ × ℚ → Polygon → Bool) (las_files_list : List LasFile)
    (corridor_polygon : Polygon) (corridor_crs : Nat)
    (default_las_crs : Option Nat) : List LasFile :=
  match las_files_list with
  | [] => []
  | f :: fs =>
    let rest := select_las_files_for_corridor T inter fs corridor_polygon
      corridor_crs default_las_crs
    if f.headerError then rest
    else
      match resolveCrs f.crs default_las_crs with
      | none => rest
      | some las_crs =>
        if inter (comparisonBox T las_crs corridor_crs f.min_x f.min_y
            f.max_x f.max_y) corridor_polygon then
          f :: rest
        else rest

/-- The external collaborators of the pipeline: the `pyproj` transformer
family, shapely's box/polygon intersection test, and the corridor polygon
construction (`calculate_corridor_polygon` computes with float
trigonometry; its real-number embedding lives in the `Corridor` section
below, so here it enters the rational pipeline as a parameter). -/
structure Ext where
  T : Nat → Nat → ℚ → ℚ → ℚ × ℚ
  inter : ℚ × ℚ × ℚ × ℚ → Polygon → Bool
  calcPoly : ℚ → ℚ → ℚ → ℚ → ℚ → Polygon

/-- The file-system environment of a corridor run: the LAS files listed
in the local source directory and in the network directory, and the state
of `source_dir/<name>` after `download_required_files` has been attempted
(`none` when the local copy still does not exist). -/
structure Env where
  localFiles : List LasFile
  networkFiles : List LasFile
  afterDownload : String → Option LasFile

/-- The caller-supplied arguments of `process_corridor`. -/
structure Args where
  x_start : ℚ
  y_start : ℚ
  x_end : ℚ
  y_end : ℚ
  corridor_half_width : ℚ
  nth_point : Nat
  source_option : Nat
  network_given : Bool
  corridor_epsg_code : Option Nat
  default_las_epsg_code : Option Nat

/-- The observable outcome of `process_corridor`: the returned boolean,
whether the output artifact exists on disk afterwards, the aggregated
`total_points_written` counter, and the points physically flushed into
the shared output writer. -/
structure CorridorResult where
  success : Bool
  outputExists : Bool
  pointsWritten : Nat
  sink : List P
deriving DecidableEq, Repr

/-- Model of Python dict insertion keyed by file name: an existing key keeps its
position and receives the new value, a new key is appended. -/
def dictInsert (d : List LasFile) (f : LasFile) : List LasFile :=
  if d.any (fun g => g.name == f.name) then
    d.map (fun g => if g.name == f.name then f else g)
  else d ++ [f]

/-- The file-list acquisition step of `process_corridor` (source options
1 = local, 2 = network, 3 = source dict merged with unseen network files);
`none` models the early `return False` on an invalid option or a missing
network directory. -/
def all_las_files (env : Env) (args : Args) : Option (List LasFile) :=
  if args.source_option = 1 then some env.localFiles
  else if args.source_option = 2 then
    if args.network_given then some env.networkFiles else none
  else if args.source_option = 3 then
    if args.network_given then
      some ((env.networkFiles.foldl
        (fun d f => if d.any (fun g => g.name == f.name) then d else d ++ [f])
        (env.localFiles.foldl dictInsert [])))
    else none
  else none

/-- The download-then-process reconciliation of source option 3: files
also present on the network are re-pointed at their local copies when the
download succeeded, and files that still do not exist are dropped. -/
def reconcile (env : Env) (valid_files : List LasFile) : List LasFile :=
  let network_names := env.networkFiles.map LasFile.name
  let files_to_download :=
    valid_files.filter (fun vf => network_names.contains vf.name)
  if files_to_download = [] then valid_files
  else
    (valid_files.map (fun vf =>
      if network_names.contains vf.name then
        match env.afterDownload vf.name with
        | some local_file => local_file
        | none => vf
      else vf)).filter LasFile.onDisk

/-- The per-file loop of `process_corridor`: poll the cancellation signal
before each file, process it, skip it on `none` stats, and accumulate the
`total_points_written` counter and the physical writer contents. -/
def runFiles (T : Nat → Nat → ℚ → ℚ → ℚ × ℚ) (corridor_polygon : Polygon)
    (corridor_crs : Nat) (nth_point : Nat) (sig : Nat → Bool)
    (default_las_crs : Option Nat) :
    List LasFile → Nat → Nat → Nat × List P × Nat
  | [], k, tw => (tw, [], k)
  | f :: fs, k, tw =>
    if sig k then (tw, [], k + 1)
    else
      let r := process_las_file T f corridor_polygon corridor_crs nth_point
        sig (k + 1) default_las_crs
      let tw' := match r.1 with
        | some s => tw + s.points_written
        | none => tw
      let rest := runFiles T corridor_polygon corridor_crs nth_point sig
        default_las_crs fs r.2.2 tw'
      (rest.1, r.2.1 ++ rest.2.1, rest.2.2)

/-- Embedding of `process_corridor` from `src/core/processing.py`: corridor
construction, file acquisition, selection, option-3 reconciliation,
output-header construction from the first selected file, the per-file
write loop, and the success test `total_points_written > 0`.  The output
artifact is created when the writer opens and deleted only in the
top-level exception handler (the only modelled exception is a header
error on the template file, which occurs before the writer opens). -/
def process_corridor (ext : Ext) (env : Env) (args : Args)
    (sig : Nat → Bool) : CorridorResult :=
  let corridor_crs := args.corridor_epsg_code.getD 25832
  let corridor_polygon := ext.calcPoly args.x_start args.y_start args.x_end
    args.y_end args.corridor_half_width
  match all_las_files env args with
  | none => ⟨false, false, 0, []⟩
  | some files =>
    if files = [] then ⟨false, false, 0, []⟩
    else
      let valid_files := select_las_files_for_corridor ext.T ext.inter files
        corridor_polygon corridor_crs args.default_las_epsg_code
      if valid_files = [] then ⟨false, false, 0, []⟩
      else
        let valid_files2 :=
          if args.source_option = 3 ∧ args.network_given then
            reconcile env valid_files
          else valid_files
        if args.source_option = 3 ∧ args.network_given ∧ valid_files2 = [] then
          ⟨false, false, 0, []⟩
        else
          match valid_files2 with
          | [] => ⟨false, false, 0, []⟩
          | template :: _ =>
            if template.headerError then ⟨false, false, 0, []⟩
            else
              let r := runFiles ext.T corridor_polygon corridor_crs
                args.nth_point sig args.default_las_epsg_code valid_files2 0 0
              ⟨decide (0 < r.1), true, r.1, r.2.1⟩

/-! ### Embedding of `src/utils/validators.py` -/

/-- Embedding of `validate_inputs` from `src/utils/validators.py`.  The string inputs
are modelled as already-parsed optional numbers; `none` stands for a
string on which `float()`/`int()` raises `ValueError`. -/
def validate_inputs (x_start_str y_start_str x_end_str y_end_str : Option ℚ)
    (corridor_half_width_str : Option ℚ) (nth_point_str : Option ℤ) :
    Bool × Option String :=
  match x_start_str, y_start_str, x_end_str, y_end_str,
      corridor_half_width_str, nth_point_str with
  | some _, some _, some _, some _, some corridor_half_width, some nth_point =>
    if corridor_half_width ≤ 0 then
      (false, some "Corridor half-width must be a positive number.")
    else if nth_point ≤ 0 then
      (false, some "Point sampling rate must be a positive integer.")
    else (true, none)
  | _, _, _, _, _, _ => (false, some "Invalid input")

/-! ### Embedding of `convert_las_to_txt` from `src/core/file_operations.py` -/

/-- Model of Python's tuple comparison on the sort key `(p[0], p[1])`:
lexicographic order on `(x, y)`; `z` is not a sort key. -/
def xyLe (p q : P) : Bool :=
  decide (p.x < q.x) || (decide (p.x = q.x) && decide (p.y ≤ q.y))

/-- Model of `sorted(points_by_class.keys())`: the distinct classification codes of
the input, in ascending order. -/
def sortedKeys (pts : List P) : List Nat :=
  ((pts.map P.classification).dedup).mergeSort (fun a b => decide (a ≤ b))

/-- The record sequence `convert_las_to_txt` serialises: for each
classification code in ascending order, that code's bucket (the input
points of that class, in stream order) sorted by `(x, y)`. -/
def sortedRecords (pts : List P) : List P :=
  (sortedKeys pts).flatMap (fun c =>
    (pts.filter (fun p => p.classification == c)).mergeSort xyLe)

/-- Round half to even at integer precision (the rounding of Python's
fixed-point float formatting, idealised over the rationals). -/
def rne (q : ℚ) : ℤ :=
  if q - ⌊q⌋ < 1/2 then ⌊q⌋
  else if 1/2 < q - ⌊q⌋ then ⌊q⌋ + 1
  else if ⌊q⌋ % 2 = 0 then ⌊q⌋ else ⌊q⌋ + 1

/-- Left-pad a three-digit fractional part with zeros. -/
def pad3 (m : Nat) : String :=
  if m < 10 then "00" ++ toString m
  else if m < 100 then "0" ++ toString m
  else toString m

/-- Model of Python's fixed three-decimal format: fixed three-decimal rendering. -/
def fmt3 (q : ℚ) : String :=
  let n := rne (q * 1000)
  (if n < 0 then "-" else "") ++ toString (n.natAbs / 1000) ++ "."
    ++ pad3 (n.natAbs % 1000)

/-- One output line: `classification,x,y,z` at fixed 3-decimal precision,
newline-terminated. -/
def lineOf (p : P) : String :=
  toString p.classification ++ "," ++ fmt3 p.x ++ "," ++ fmt3 p.y ++ ","
    ++ fmt3 p.z ++ "\n"

/-- The scan phase of `convert_las_to_txt`: stream the chunks (cancellation
polled once per chunk), accumulating every point; `none` on cancellation. -/
def scanChunks (sig : Nat → Bool) :
    List (List P) → Nat → Option (List P × Nat)
  | [], k => some ([], k)
  | c :: cs, k =>
    if sig k then none
    else (scanChunks sig cs (k + 1)).map (fun r => (c ++ r.1, r.2))

/-- The write phase of `convert_las_to_txt`: one line per record, with the
cancellation signal polled before each line; `none` on cancellation (the
partially written file is deleted). -/
def writeLines (sig : Nat → Bool) : List P → Nat → Option (List String)
  | [], _ => some []
  | p :: ps, k =>
    if sig k then none
    else (writeLines sig ps (k + 1)).map (fun ls => lineOf p :: ls)

/-- Embedding of `convert_las_to_txt`: bucket all points by classification code, then
emit the buckets in ascending code order, each sorted by `(x, y)`.
Returns the lines of the text file, or `none` when the run was cancelled
(in which case no output file remains on disk). -/
def convert_las_to_txt (sig : Nat → Bool) (chunks : List (List P)) :
    Option (List String) :=
  match scanChunks sig chunks 0 with
  | none => none
  | some (pts, k) => writeLines sig (sortedRecords pts) k

end LasProc

namespace Corridor

/-! ### Embedding of `calculate_corridor_polygon` from `src/core/geometry.py`

The construction uses `math.atan2 / cos / sin`, so it is embedded over the
real numbers. -/

/-- Model of `math.atan2(y, x)`: the argument of the complex number `x + y·i`,
in `(-π, π]`, with `atan2 0 0 = 0`. -/
noncomputable def atan2 (y x : ℝ) : ℝ := Complex.arg ⟨x, y⟩

/-- Embedding of `calculate_corridor_polygon`: the four corridor corners.  The
rectangle follows the segment direction, is `half_width` wide on each
side, and is extended `half_width` beyond both segment ends. -/
noncomputable def calculate_corridor_polygon
    (x_start y_start x_end y_end corridor_half_width : ℝ) : List (ℝ × ℝ) :=
  let dx := x_end - x_start
  let dy := y_end - y_start
  let angle := atan2 dy dx
  let perpendicular_angle := angle + Real.pi / 2
  let buffer_x := corridor_half_width * Real.cos perpendicular_angle
  let buffer_y := corridor_half_width * Real.sin perpendicular_angle
  let end_buffer_x := corridor_half_width * Real.cos angle
  let end_buffer_y := corridor_half_width * Real.sin angle
  [(x_start - end_buffer_x + buffer_x, y_start - end_buffer_y + buffer_y),
   (x_start - end_buffer_x - buffer_x, y_start - end_buffer_y - buffer_y),
   (x_end + end_buffer_x - buffer_x, y_end + end_buffer_y - buffer_y),
   (x_end + end_buffer_x + buffer_x, y_end + end_buffer_y + buffer_y)]

/-- Shapely's `polygon.area`: half the absolute value of the shoelace sum
over the vertex ring. -/
noncomputable def shoelaceArea (poly : List (ℝ × ℝ)) : ℝ :=
  |(LasProc.ringEdges poly).foldl
    (fun acc e => acc + (e.1.1 * e.2.2 - e.2.1 * e.1.2)) 0| / 2

end Corridor

namespace LasProc

/-! ### Claim C8 -/

/-- The per-file decision of the selector: skip files whose header read
errors, skip files with no CRS and no default, and otherwise keep the
file exactly when its comparison box (reprojected-corner envelope when
the CRS differs) intersects the corridor polygon. -/
def keepFile (T : Nat → Nat → ℚ → ℚ → ℚ × ℚ)
    (inter : ℚ × ℚ × ℚ × ℚ → Polygon → Bool) (corridor_polygon : Polygon)
    (corridor_crs : Nat) (default_las_crs : Option Nat) (f : LasFile) : Bool :=
  if f.headerError then false
  else
    match resolveCrs f.crs default_las_crs with
    | none => false
    | some las_crs =>
      inter (comparisonBox T las_crs corridor_crs f.min_x f.min_y f.max_x
        f.max_y) corridor_polygon

/-! ### Claim C1 -/

/-- The per-point in-corridor test, as the chunk mask computes it. -/
def pointInCorridor (poly : Polygon) (p : P) : Bool :=
  polyContains poly (p.x, p.y)

/-- The optional x/y reprojection applied to the surviving points. -/
def applyTrans (trans : Option (ℚ → ℚ → ℚ × ℚ)) (l : List P) : List P :=
  match trans with
  | some t => l.map (fun p => { p with x := (t p.x p.y).1, y := (t p.x p.y).2 })
  | none => l

/-! ### Claims C4 and C6 -/

/-- Does a `process_corridor` run get as far as opening the output writer
(creating the output artifact)?  This mirrors the guard structure of
`process_corridor`: files acquired and non-empty, selection non-empty,
option-3 reconciliation non-empty, template header readable. -/
def reachesWriter (ext : Ext) (env : Env) (args : Args) : Bool :=
  match all_las_files env args with
  | none => false
  | some files =>
    if files = [] then false
    else
      let corridor_crs := args.corridor_epsg_code.getD 25832
      let corridor_polygon := ext.calcPoly args.x_start args.y_start
        args.x_end args.y_end args.corridor_half_width
      let valid_files := select_las_files_for_corridor ext.T ext.inter files
        corridor_polygon corridor_crs args.default_las_epsg_code
      if valid_files = [] then false
      else
        let valid_files2 :=
          if args.source_option = 3 ∧ args.network_given then
            reconcile env valid_files
          else valid_files
        if args.source_option = 3 ∧ args.network_given ∧ valid_files2 = [] then
          false
        else
          match valid_files2 with
          | [] => false
          | template :: _ => !template.headerError

end LasProc


namespace LasProc

theorem foldl_min_le (f : Pt → ℚ) :
    ∀ (l : List Pt) (b : ℚ), l.foldl (fun a q => min a (f q)) b ≤ b := by
  intro l
  induction l with
  | nil => intro b; exact le_rfl
  | cons q l ih =>
    intro b
    exact le_trans (ih (min b (f q))) (min_le_left _ _)

theorem foldl_min_le_of_mem (f : Pt → ℚ) :
    ∀ (l : List Pt) (b : ℚ) (p : Pt), p ∈ l →
      l.foldl (fun a q => min a (f q)) b ≤ f p := by
  intro l
  induction l with
  | nil => intro b p hp; cases hp
  | cons q l ih =>
    intro b p hp
    rcases List.mem_cons.mp hp with h | h
    · subst h
      exact le_trans (foldl_min_le f l (min b (f p))) (min_le_right _ _)
    · exact ih (min b (f q)) p h

theorem le_foldl_max (f : Pt → ℚ) :
    ∀ (l : List Pt) (b : ℚ), b ≤ l.foldl (fun a q => max a (f q)) b := by
  intro l
  induction l with
  | nil => intro b; exact le_rfl
  | cons q l ih =>
    intro b
    exact le_trans (le_max_left _ _) (ih (max b (f q)))

theorem le_foldl_max_of_mem (f : Pt → ℚ) :
    ∀ (l : List Pt) (b : ℚ) (p : Pt), p ∈ l →
      f p ≤ l.foldl (fun a q => max a (f q)) b := by
  intro l
  induction l with
  | nil => intro b p hp; cases hp
  | cons q l ih =>
    intro b p hp
    rcases List.mem_cons.mp hp with h | h
    · subst h
      exact le_trans (le_max_right _ _) (le_foldl_max f l (max b (f p)))
    · exact ih (max b (f q)) p h

/-- Every vertex of a polygon lies inside `polyBounds`. -/
theorem mem_polyBounds {poly : Polygon} {p : Pt} (hp : p ∈ poly) :
    (polyBounds poly).1 ≤ p.1 ∧ p.1 ≤ (polyBounds poly).2.2.1 ∧
      (polyBounds poly).2.1 ≤ p.2 ∧ p.2 ≤ (polyBounds poly).2.2.2 := by
  match poly with
  | [] => cases hp
  | v :: vs =>
    rcases List.mem_cons.mp hp with h | h
    · subst h
      exact ⟨foldl_min_le _ vs _, le_foldl_max _ vs _,
        foldl_min_le _ vs _, le_foldl_max _ vs _⟩
    · exact ⟨foldl_min_le_of_mem _ vs _ p h, le_foldl_max_of_mem _ vs _ p h,
        foldl_min_le_of_mem _ vs _ p h, le_foldl_max_of_mem _ vs _ p h⟩

/-- Both endpoints of a ring edge are vertices of the polygon. -/
theorem mem_of_mem_ringEdges {poly : Polygon} {e : Pt × Pt}
    (he : e ∈ ringEdges poly) : e.1 ∈ poly ∧ e.2 ∈ poly := by
  obtain ⟨a, b⟩ := e
  have h := List.of_mem_zip he
  exact ⟨h.1, List.mem_rotate.mp h.2⟩

/-- If the ray from `p` crosses edge `(a, b)`, the crossing abscissa lies
between the two endpoint abscissas. -/
theorem xint_between (a b p : Pt)
    (h : (decide (a.2 > p.2) != decide (b.2 > p.2)) = true) :
    min a.1 b.1 ≤ a.1 + (p.2 - a.2) * (b.1 - a.1) / (b.2 - a.2) ∧
      a.1 + (p.2 - a.2) * (b.1 - a.1) / (b.2 - a.2) ≤ max a.1 b.1 := by
  rw [bne_iff_ne, ne_eq, decide_eq_decide] at h
  have ht : 0 ≤ (p.2 - a.2) / (b.2 - a.2) ∧ (p.2 - a.2) / (b.2 - a.2) ≤ 1 := by
    by_cases ha : a.2 > p.2
    · have hb : ¬ b.2 > p.2 := fun hb => h ⟨fun _ => hb, fun _ => ha⟩
      push_neg at hb
      have hd : b.2 - a.2 < 0 := by linarith
      constructor
      · exact div_nonneg_of_nonpos (by linarith) (le_of_lt hd)
      · rw [div_le_one_of_neg hd]; linarith
    · have hb : b.2 > p.2 := by
        by_contra hb
        exact h ⟨fun hh => absurd hh ha, fun hh => absurd hh hb⟩
      push_neg at ha
      have hd : 0 < b.2 - a.2 := by linarith
      constructor
      · exact div_nonneg (by linarith) (le_of_lt hd)
      · rw [div_le_one hd]; linarith
  have hrw : (p.2 - a.2) * (b.1 - a.1) / (b.2 - a.2)
      = (p.2 - a.2) / (b.2 - a.2) * (b.1 - a.1) := by ring
  rw [hrw]
  obtain ⟨ht0, ht1⟩ := ht
  rcases le_total a.1 b.1 with hab | hab
  · constructor
    · have : 0 ≤ (p.2 - a.2) / (b.2 - a.2) * (b.1 - a.1) :=
        mul_nonneg ht0 (by linarith)
      calc min a.1 b.1 ≤ a.1 := min_le_left _ _
        _ ≤ _ := by linarith
    · have : (p.2 - a.2) / (b.2 - a.2) * (b.1 - a.1) ≤ 1 * (b.1 - a.1) :=
        mul_le_mul_of_nonneg_right ht1 (by linarith)
      calc a.1 + (p.2 - a.2) / (b.2 - a.2) * (b.1 - a.1) ≤ b.1 := by linarith
        _ ≤ max a.1 b.1 := le_max_right _ _
  · constructor
    · have : 1 * (b.1 - a.1) ≤ (p.2 - a.2) / (b.2 - a.2) * (b.1 - a.1) :=
        mul_le_mul_of_nonpos_right ht1 (by linarith)
      calc min a.1 b.1 ≤ b.1 := min_le_right _ _
        _ ≤ _ := by linarith
    · have : (p.2 - a.2) / (b.2 - a.2) * (b.1 - a.1) ≤ 0 :=
        mul_nonpos_of_nonneg_of_nonpos ht0 (by linarith)
      calc a.1 + (p.2 - a.2) / (b.2 - a.2) * (b.1 - a.1) ≤ a.1 := by linarith
        _ ≤ max a.1 b.1 := le_max_left _ _

/-- Walking a path of booleans from `a` through `l` to an appended final
value `c`, the number of adjacent flips is even iff the endpoints agree. -/
theorem flip_parity (l : List Bool) (a c : Bool) :
    (List.countP (fun pr : Bool × Bool => pr.1 != pr.2) ((a :: l).zip (l ++ [c]))) % 2
      = if a = c then 0 else 1 := by
  induction l generalizing a with
  | nil =>
    simp only [List.nil_append, List.zip_cons_cons, List.zip_nil_left,
      List.countP_cons, List.countP_nil]
    cases a <;> cases c <;> rfl
  | cons b l ih =>
    have hz : ((a :: b :: l).zip ((b :: l) ++ [c]))
        = (a, b) :: ((b :: l).zip (l ++ [c])) := rfl
    rw [hz, List.countP_cons, Nat.add_mod, ih b]
    cases a <;> cases b <;> cases c <;> simp

/-- Around a closed ring of booleans, the number of adjacent flips is even. -/
theorem cyclic_flip_parity (bs : List Bool) :
    (List.countP (fun pr : Bool × Bool => pr.1 != pr.2) (bs.zip (bs.rotate 1))) % 2
      = 0 := by
  match bs with
  | [] => rfl
  | a :: l =>
    rw [List.rotate_cons_succ, List.rotate_zero, flip_parity]
    simp

/-- With the point strictly left of every vertex, the crossing count equals
the number of edges straddling the horizontal line through the point, and
that count is even. -/
theorem countP_straddle_even (poly : Polygon) (p : Pt) :
    (List.countP (fun e : Pt × Pt => decide (e.1.2 > p.2) != decide (e.2.2 > p.2))
      (ringEdges poly)) % 2 = 0 := by
  have h1 : ringEdges (poly.map (fun v : Pt => decide (v.2 > p.2)))
      = (ringEdges poly).map (Prod.map (fun v : Pt => decide (v.2 > p.2))
          (fun v : Pt => decide (v.2 > p.2))) := by
    unfold ringEdges
    rw [← List.map_rotate, List.zip_map]
  have h2 := cyclic_flip_parity (poly.map (fun v : Pt => decide (v.2 > p.2)))
  unfold ringEdges at h1
  rw [h1, List.countP_map] at h2
  exact h2

/-- Key soundness fact for the two-stage test: a point strictly inside the
polygon (in the sense of the exact containment test) always lies inside the
polygon's axis-aligned bounding box. -/
theorem inBounds_of_polyContains {poly : Polygon} {p : Pt}
    (h : polyContains poly p = true) : inBoundsB poly p = true := by
  unfold polyContains at h
  rw [Bool.and_eq_true] at h
  obtain ⟨hodd, _⟩ := h
  rw [beq_iff_eq] at hodd
  have hpos : 0 < List.countP (crossesRay p) (ringEdges poly) :=
    Nat.pos_of_ne_zero (fun hz => by rw [hz] at hodd; simp at hodd)
  obtain ⟨e, he, hce⟩ := List.countP_pos_iff.mp hpos
  have hmem := mem_of_mem_ringEdges he
  unfold crossesRay at hce
  rw [Bool.and_eq_true, decide_eq_true_iff] at hce
  obtain ⟨hstrad, hxlt⟩ := hce
  have hb1 := mem_polyBounds hmem.1
  have hb2 := mem_polyBounds hmem.2
  have hxint := xint_between e.1 e.2 p hstrad
  -- y bounds: one endpoint of a straddling edge is strictly above p, the
  -- other is at or below p.
  have hy : (polyBounds poly).2.1 ≤ p.2 ∧ p.2 ≤ (polyBounds poly).2.2.2 := by
    have hstrad' := hstrad
    rw [bne_iff_ne, ne_eq, decide_eq_decide] at hstrad'
    by_cases h1 : e.1.2 > p.2
    · have h2 : ¬ e.2.2 > p.2 := fun hh => hstrad' ⟨fun _ => hh, fun _ => h1⟩
      push_neg at h2
      exact ⟨le_trans hb2.2.2.1 h2, le_trans (le_of_lt h1) hb1.2.2.2⟩
    · have h2 : e.2.2 > p.2 := by
        by_contra hh
        exact hstrad' ⟨fun h' => absurd h' h1, fun h' => absurd h' hh⟩
      push_neg at h1
      exact ⟨le_trans hb1.2.2.1 h1, le_trans (le_of_lt h2) hb2.2.2.2⟩
  -- x upper bound: the crossing abscissa is at most max_x.
  have hxmax : p.1 ≤ (polyBounds poly).2.2.1 := by
    have : max e.1.1 e.2.1 ≤ (polyBounds poly).2.2.1 :=
      max_le hb1.2.1 hb2.2.1
    linarith [hxint.2]
  -- x lower bound: if p were strictly left of min_x, every straddling edge
  -- would cross, giving an even crossing count, contradicting oddness.
  have hxmin : (polyBounds poly).1 ≤ p.1 := by
    by_contra hlt
    push_neg at hlt
    have hall : ∀ e' ∈ ringEdges poly, crossesRay p e'
        = (decide (e'.1.2 > p.2) != decide (e'.2.2 > p.2)) := by
      intro e' he'
      unfold crossesRay
      by_cases hs : (decide (e'.1.2 > p.2) != decide (e'.2.2 > p.2)) = true
      · rw [hs, Bool.true_and]
        have hmem' := mem_of_mem_ringEdges he'
        have hb1' := mem_polyBounds hmem'.1
        have hb2' := mem_polyBounds hmem'.2
        have hxint' := (xint_between e'.1 e'.2 p hs).1
        have hminx : (polyBounds poly).1 ≤ min e'.1.1 e'.2.1 :=
          le_min hb1'.1 hb2'.1
        rw [decide_eq_true_iff]
        linarith
      · rw [Bool.not_eq_true] at hs
        rw [hs, Bool.false_and]
    have hall' : ∀ e' ∈ ringEdges poly, (crossesRay p e' = true
        ↔ (decide (e'.1.2 > p.2) != decide (e'.2.2 > p.2)) = true) :=
      fun e' he' => by rw [hall e' he']
    rw [List.countP_congr hall', countP_straddle_even poly p] at hodd
    exact absurd hodd (by norm_num)
  unfold inBoundsB
  rw [Bool.and_eq_true, Bool.and_eq_true, Bool.and_eq_true]
  refine ⟨⟨⟨?_, ?_⟩, ?_⟩, ?_⟩ <;> rw [decide_eq_true_iff]
  · exact hxmin
  · exact hxmax
  · exact hy.1
  · exact hy.2

/-- Boolean-mask indexing with the mask computed pointwise from the list
itself is `List.filter`. -/
theorem maskFilter_map {α : Type} (f : α → Bool) :
    ∀ l : List α, maskFilter l (l.map f) = l.filter f := by
  intro l
  induction l with
  | nil => rfl
  | cons a l ih =>
    by_cases h : f a
    · simp [maskFilter, List.filter_cons, h, ih]
    · rw [Bool.not_eq_true] at h
      simp [maskFilter, List.filter_cons, h, ih]

/-- Scattering values computed on the mask-surviving elements back into a
full-length all-`false` array yields the pointwise conjunction. -/
theorem scatterMask_map {α : Type} (f g : α → Bool) :
    ∀ l : List α,
      scatterMask (l.map f) ((l.filter f).map g) = l.map (fun a => f a && g a) := by
  intro l
  induction l with
  | nil => rfl
  | cons a l ih =>
    cases h : f a with
    | true =>
      simp only [List.map_cons, List.filter_cons, h, if_true, List.map_cons]
      rw [show scatterMask (true :: l.map f) (g a :: (l.filter f).map g)
        = g a :: scatterMask (l.map f) ((l.filter f).map g) from rfl, ih]
      simp
    | false =>
      simp only [List.map_cons, List.filter_cons, h, Bool.false_eq_true, if_false]
      rw [show scatterMask (false :: l.map f) ((l.filter f).map g)
        = false :: scatterMask (l.map f) ((l.filter f).map g) from rfl, ih]
      simp

/-- The two-stage containment test of `points_in_polygon_chunk` computes
exactly the same mask as the exact containment test run on every point. -/
theorem points_in_polygon_chunk_eq_direct
    (x_coords y_coords : List ℚ) (polygon : Polygon) :
    points_in_polygon_chunk x_coords y_coords polygon
      = points_in_polygon_direct x_coords y_coords polygon := by
  unfold points_in_polygon_chunk points_in_polygon_direct
  set pts := x_coords.zip y_coords with hpts
  by_cases hany : (pts.map (inBoundsB polygon)).any id = false
  · rw [if_pos hany]
    rw [List.any_eq_false] at hany
    symm
    rw [List.eq_replicate_iff]
    refine ⟨by simp, ?_⟩
    intro b hb
    obtain ⟨p, hp, hbp⟩ := List.mem_map.mp hb
    by_contra hbt
    rw [Bool.not_eq_false] at hbt
    have hin : inBoundsB polygon p = true :=
      inBounds_of_polyContains (hbp.symm ▸ hbt)
    exact absurd hin (by simpa using hany _ (List.mem_map_of_mem _ hp))
  · rw [if_neg hany, maskFilter_map, scatterMask_map]
    apply List.map_congr_left
    intro p _
    by_cases hc : polyContains polygon p = true
    · rw [hc, inBounds_of_polyContains hc, Bool.true_and]
    · rw [Bool.not_eq_true] at hc
      rw [hc, Bool.and_false]

/-! ### Claim C3 -/

/-- C3: for every array of points and every polygon, the two-stage
containment test (bounding-box pre-rejection, exact test on the
candidates, scatter back into a full-length mask) returns exactly the
same boolean mask as the exact point-in-polygon test run directly on
every point. -/
theorem two_stage_mask_eq_direct_mask
    (x_coords y_coords : List ℚ) (polygon : Polygon) :
    points_in_polygon_chunk x_coords y_coords polygon
      = points_in_polygon_direct x_coords y_coords polygon :=
  points_in_polygon_chunk_eq_direct x_coords y_coords polygon

/-! ### Claim C10 -/

/-- A point on the polygon boundary is never strictly contained. -/
theorem polyContains_eq_false_of_onBoundary {poly : Polygon} {p : Pt}
    (hb : onBoundary poly p = true) : polyContains poly p = false := by
  unfold polyContains
  rw [hb]
  simp

/-- C10: a point lying exactly on the boundary of the corridor polygon is
never classified as in-corridor (its mask entry is `false`) and never
survives the mask filtering that selects the points to write. -/
theorem boundary_point_never_in_corridor
    (x_coords y_coords : List ℚ) (polygon : Polygon) (i : Nat)
    (hx : i < x_coords.length) (hy : i < y_coords.length)
    (hb : onBoundary polygon (x_coords.getD i 0, y_coords.getD i 0) = true) :
    (points_in_polygon_chunk x_coords y_coords polygon).getD i false = false ∧
      (x_coords.getD i 0, y_coords.getD i 0)
        ∉ maskFilter (x_coords.zip y_coords)
            (points_in_polygon_chunk x_coords y_coords polygon) := by
  have hiz : i < (x_coords.zip y_coords).length := by
    rw [List.length_zip]; omega
  have hpz : (x_coords.zip y_coords)[i]
      = (x_coords.getD i 0, y_coords.getD i 0) := by
    rw [List.getElem_zip, List.getD_eq_getElem x_coords 0 hx,
      List.getD_eq_getElem y_coords 0 hy]
  have hcontains : polyContains polygon
      (x_coords.getD i 0, y_coords.getD i 0) = false :=
    polyContains_eq_false_of_onBoundary hb
  constructor
  · rw [points_in_polygon_chunk_eq_direct]
    unfold points_in_polygon_direct
    rw [List.getD_eq_getElem _ false (by rw [List.length_map]; exact hiz),
      List.getElem_map, hpz, hcontains]
  · intro hmem
    rw [points_in_polygon_chunk_eq_direct] at hmem
    unfold points_in_polygon_direct at hmem
    rw [maskFilter_map (polyContains polygon) (x_coords.zip y_coords)] at hmem
    have := List.of_mem_filter hmem
    rw [hcontains] at this
    cases this

/-- Witness for C10 at a concrete input: the point `(1/2, 0)` lies on the
bottom edge of the unit square and is rejected. -/
theorem boundary_point_never_in_corridor_witness :
    (points_in_polygon_chunk [(1:ℚ)/2] [(0:ℚ)]
        [((0:ℚ), (0:ℚ)), (1, 0), (1, 1), (0, 1)]).getD 0 false = false ∧
      (((1:ℚ)/2 : ℚ), ((0:ℚ) : ℚ))
        ∉ maskFilter ([(1:ℚ)/2].zip [(0:ℚ)])
            (points_in_polygon_chunk [(1:ℚ)/2] [(0:ℚ)]
              [((0:ℚ), (0:ℚ)), (1, 0), (1, 1), (0, 1)]) := by
  have h := boundary_point_never_in_corridor [(1:ℚ)/2] [(0:ℚ)]
    [((0:ℚ), (0:ℚ)), (1, 0), (1, 1), (0, 1)] 0
    (by decide) (by decide)
    (by simp [onBoundary, ringEdges, onSegment, List.rotate]; norm_num)
  exact h

/-! ### Claim C7 -/

/-- Counterexample to C7: the degenerate segment with `start = end =
(0, 0)` (and valid half-width and stride) passes validation — the code
never checks `start ≠ end`, while the claim requires rejection. -/
theorem validate_inputs_accepts_degenerate_segment :
    validate_inputs (some 0) (some 0) (some 0) (some 0) (some 1) (some 1)
      = (true, none) := by
  norm_num [validate_inputs]

/-- C7 (amended): validation — which performs no file I/O — accepts an
input exactly when the corridor half-width and the downsampling stride
are positive, reporting an error message otherwise; the coordinates are
not inspected, so a degenerate segment (start = end) is not rejected. -/
theorem validate_inputs_spec (x_s y_s x_e y_e corridor_half_width : ℚ)
    (nth_point : ℤ) :
    ((validate_inputs (some x_s) (some y_s) (some x_e) (some y_e)
        (some corridor_half_width) (some nth_point)).1 = true
      ↔ (0 < corridor_half_width ∧ 0 < nth_point)) ∧
    ((validate_inputs (some x_s) (some y_s) (some x_e) (some y_e)
        (some corridor_half_width) (some nth_point)).2 = none
      ↔ (0 < corridor_half_width ∧ 0 < nth_point)) := by
  have hv : validate_inputs (some x_s) (some y_s) (some x_e) (some y_e)
      (some corridor_half_width) (some nth_point)
      = if corridor_half_width ≤ 0 then
          (false, some "Corridor half-width must be a positive number.")
        else if nth_point ≤ 0 then
          (false, some "Point sampling rate must be a positive integer.")
        else (true, none) := rfl
  rw [hv]
  by_cases h1 : corridor_half_width ≤ 0
  · rw [if_pos h1]
    constructor <;> constructor <;> intro h
    · cases h
    · exact absurd h1 (not_le.mpr h.1)
    · cases h
    · exact absurd h1 (not_le.mpr h.1)
  · rw [if_neg h1]
    by_cases h2 : nth_point ≤ 0
    · rw [if_pos h2]
      constructor <;> constructor <;> intro h
      · cases h
      · exact absurd h2 (not_le.mpr h.2)
      · cases h
      · exact absurd h2 (not_le.mpr h.2)
    · rw [if_neg h2]
      push_neg at h1 h2
      constructor <;> constructor <;> intro h
      · exact ⟨h1, h2⟩
      · rfl
      · exact ⟨h1, h2⟩
      · rfl

/-! ### Claim C5 -/

/-- C5: `process_corridor` reports success exactly when its aggregated
`total_points_written` counter is positive — a run writing zero points
returns `false` (the embedding is a total function: every failure path of
the code returns `False` rather than raising). -/
theorem process_corridor_success_iff_written (ext : Ext) (env : Env)
    (args : Args) (sig : Nat → Bool) :
    (process_corridor ext env args sig).success = true
      ↔ 0 < (process_corridor ext env args sig).pointsWritten := by
  unfold process_corridor
  cases all_las_files env args with
  | none => simp
  | some files =>
    dsimp only
    split_ifs <;> try simp
    all_goals split <;> try simp
    all_goals split_ifs <;> simp [decide_eq_true_iff]

/-- C8: the selector returns exactly the files whose (possibly
reprojected) bounding box intersects the corridor polygon, in the
original input order; files erroring during header inspection and files
with no CRS and no default are skipped without failing the batch. -/
theorem select_las_files_eq_filter (T : Nat → Nat → ℚ → ℚ → ℚ × ℚ)
    (inter : ℚ × ℚ × ℚ × ℚ → Polygon → Bool) (files : List LasFile)
    (corridor_polygon : Polygon) (corridor_crs : Nat)
    (default_las_crs : Option Nat) :
    select_las_files_for_corridor T inter files corridor_polygon corridor_crs
        default_las_crs
      = files.filter
          (keepFile T inter corridor_polygon corridor_crs default_las_crs) := by
  induction files with
  | nil => rfl
  | cons f fs ih =>
    rw [List.filter_cons]
    by_cases hh : f.headerError
    · simp [select_las_files_for_corridor, keepFile, hh, ih]
    · rw [Bool.not_eq_true] at hh
      cases hc : resolveCrs f.crs default_las_crs with
      | none => simp [select_las_files_for_corridor, keepFile, hh, hc, ih]
      | some las_crs =>
        by_cases hi : inter (comparisonBox T las_crs corridor_crs f.min_x
            f.min_y f.max_x f.max_y) corridor_polygon
        · simp [select_las_files_for_corridor, keepFile, hh, hc, hi, ih]
        · rw [Bool.not_eq_true] at hi
          simp [select_las_files_for_corridor, keepFile, hh, hc, hi, ih]

end LasProc

namespace Corridor

/-! ### Claim C2 -/

/-- The corridor polygon's shoelace area, for any non-degenerate segment
and positive half-width: `(length + 2·half_width) · (2·half_width)` —
the along-axis extension enlarges the rectangle's long side by
`2·half_width`. -/
theorem corridor_area_formula (xs ys xe ye h : ℝ) (hh : 0 < h)
    (hne : ¬(xs = xe ∧ ys = ye)) :
    shoelaceArea (calculate_corridor_polygon xs ys xe ye h)
      = (Real.sqrt ((xe - xs)^2 + (ye - ys)^2) + 2*h) * (2*h) := by
  have hz : (⟨xe - xs, ye - ys⟩ : ℂ) ≠ 0 := by
    intro h0
    rw [Complex.ext_iff] at h0
    simp at h0
    exact hne ⟨by linarith [h0.1], by linarith [h0.2]⟩
  have hr : Complex.abs ⟨xe - xs, ye - ys⟩
      = Real.sqrt ((xe - xs)^2 + (ye - ys)^2) := by
    rw [Complex.abs_apply, Complex.normSq_mk]
    ring_nf
  set r := Complex.abs ⟨xe - xs, ye - ys⟩ with hrdef
  have hrpos : 0 < r := by
    rw [hrdef]
    exact Complex.abs.pos hz
  have hc : Real.cos (atan2 (ye - ys) (xe - xs)) = (xe - xs) / r :=
    Complex.cos_arg hz
  have hs : Real.sin (atan2 (ye - ys) (xe - xs)) = (ye - ys) / r :=
    Complex.sin_arg _
  have hr2 : r^2 = (xe - xs)^2 + (ye - ys)^2 := by
    rw [hrdef, Complex.sq_abs, Complex.normSq_mk]
    ring
  rw [← hr]
  unfold calculate_corridor_polygon shoelaceArea
  simp only [Real.cos_add_pi_div_two, Real.sin_add_pi_div_two, hc, hs,
    LasProc.ringEdges, List.rotate_cons_succ, List.rotate_zero,
    List.zip_cons_cons, List.zip_nil_right, List.foldl_cons,
    List.foldl_nil, List.nil_append, List.cons_append]
  have habs : ∀ x : ℝ, x = 4*h*(r + 2*h) → |x|/2 = (r + 2*h)*(2*h) := by
    intro x hx
    rw [hx, abs_of_pos (by nlinarith)]
    ring
  apply habs
  field_simp
  ring_nf
  linear_combination (-(4*h*r) - 8*h^2) * hr2

/-- Counterexample to C2 as stated: for the corridor from `(0, 0)` to
`(1, 0)` with half-width `1`, the polygon area is `6`, not
`length · 2·halfWidth = 2` — the short ends extend `halfWidth` beyond the
segment endpoints, enlarging the area by `4·halfWidth²`. -/
theorem corridor_area_ne_length_mul_width :
    shoelaceArea (calculate_corridor_polygon 0 0 1 0 1)
      ≠ Real.sqrt (((1:ℝ) - 0)^2 + ((0:ℝ) - 0)^2) * (2*1) := by
  rw [corridor_area_formula 0 0 1 0 1 one_pos (by norm_num)]
  norm_num

/-- C2 (amended): for every valid corridor specification
(`halfWidth > 0`, `start ≠ end`), `calculate_corridor_polygon` produces a
4-vertex polygon whose area equals `(length + 2·halfWidth) × 2·halfWidth`,
where `length` is the Euclidean distance between start and end. -/
theorem corridor_polygon_four_vertices_and_area (xs ys xe ye h : ℝ)
    (hh : 0 < h) (hne : ¬(xs = xe ∧ ys = ye)) :
    (calculate_corridor_polygon xs ys xe ye h).length = 4 ∧
      shoelaceArea (calculate_corridor_polygon xs ys xe ye h)
        = (Real.sqrt ((xe - xs)^2 + (ye - ys)^2) + 2*h) * (2*h) :=
  ⟨rfl, corridor_area_formula xs ys xe ye h hh hne⟩

/-- Witness for the amended C2 at the corridor `(0,0) → (1,0)`,
half-width `1`: area `(1 + 2)·2 = 6`. -/
theorem corridor_polygon_four_vertices_and_area_witness :
    (calculate_corridor_polygon 0 0 1 0 1).length = 4 ∧
      shoelaceArea (calculate_corridor_polygon 0 0 1 0 1)
        = (Real.sqrt (((1:ℝ) - 0)^2 + ((0:ℝ) - 0)^2) + 2*1) * (2*1) :=
  corridor_polygon_four_vertices_and_area 0 0 1 0 1 one_pos (by norm_num)

end Corridor

namespace LasProc

/-- Keeping every `n`-th element retains `⌈len / n⌉` elements. -/
theorem takeNth_length {α : Type} (n : Nat) (hn : 1 ≤ n) (l : List α) :
    (takeNth n l).length = (l.length + (n - 1)) / n := by
  induction l using takeNth.induct n with
  | case1 =>
    simp only [takeNth, List.length_nil, Nat.zero_add]
    symm
    apply Nat.div_eq_of_lt
    omega
  | case2 a rest ih =>
    simp only [takeNth, List.length_cons]
    rw [ih, List.length_drop]
    rcases le_or_lt (n - 1) rest.length with h | h
    · rw [Nat.sub_add_cancel h]
      have he : rest.length + 1 + (n - 1) = rest.length + n := by omega
      rw [he, Nat.add_div_right _ (by omega)]
    · have h1 : rest.length - (n - 1) = 0 := by omega
      rw [h1]
      have he : rest.length + 1 + (n - 1) = rest.length + n := by omega
      rw [he, Nat.add_div_right _ (by omega), Nat.zero_add,
        @Nat.div_eq_of_lt (n - 1) n (by omega),
        @Nat.div_eq_of_lt rest.length n (by omega)]

/-- The containment mask of a chunk is the pointwise in-corridor test. -/
theorem chunk_mask_eq (poly : Polygon) (c : List P) :
    points_in_polygon_chunk (c.map P.x) (c.map P.y) poly
      = c.map (pointInCorridor poly) := by
  rw [points_in_polygon_chunk_eq_direct]
  unfold points_in_polygon_direct
  rw [List.zip_map']
  rw [List.map_map]
  rfl

/-- Counting `true` in a pointwise mask counts the matching elements. -/
theorem count_true_map (f : P → Bool) (c : List P) :
    (c.map f).count true = c.countP f := by
  rw [List.count_eq_countP, List.countP_map]
  apply List.countP_congr
  intro a _
  simp

/-- Full behaviour of `processChunk`: the in-corridor count is the number
of points passing the exact test; the written points are every `n`-th
point of the chunk's filtered (in-corridor) sequence, reprojected; and
their number is `⌈k / n⌉`. -/
theorem processChunk_spec (poly : Polygon) (trans : Option (ℚ → ℚ → ℚ × ℚ))
    (n : Nat) (hn : 1 ≤ n) (c : List P) :
    (processChunk poly trans n c).2 = c.countP (pointInCorridor poly) ∧
      (processChunk poly trans n c).1
        = applyTrans trans (if 1 < n
            then takeNth n (c.filter (pointInCorridor poly))
            else c.filter (pointInCorridor poly)) ∧
      (processChunk poly trans n c).1.length
        = (c.countP (pointInCorridor poly) + (n - 1)) / n := by
  unfold processChunk
  rw [chunk_mask_eq]
  dsimp only
  rw [count_true_map, maskFilter_map]
  by_cases hk : 0 < c.countP (pointInCorridor poly)
  · rw [if_pos hk]
    refine ⟨rfl, ?_, ?_⟩
    · by_cases h1 : 1 < n
      · rw [if_pos h1]
        cases trans <;> rfl
      · rw [if_neg h1]
        cases trans <;> rfl
    · have hlen : ∀ tr l, (applyTrans tr l).length = l.length := by
        intro tr l
        cases tr <;> simp [applyTrans]
      by_cases h1 : 1 < n
      · rw [if_pos h1]
        have : (match trans with
            | some t => (takeNth n (c.filter (pointInCorridor poly))).map
                (fun p => { p with x := (t p.x p.y).1, y := (t p.x p.y).2 })
            | none => takeNth n (c.filter (pointInCorridor poly)))
            = applyTrans trans (takeNth n (c.filter (pointInCorridor poly))) := by
          cases trans <;> rfl
        rw [this, hlen, takeNth_length n hn, ← List.countP_eq_length_filter]
      · have hn1 : n = 1 := by omega
        rw [if_neg h1]
        have : (match trans with
            | some t => (c.filter (pointInCorridor poly)).map
                (fun p => { p with x := (t p.x p.y).1, y := (t p.x p.y).2 })
            | none => c.filter (pointInCorridor poly))
            = applyTrans trans (c.filter (pointInCorridor poly)) := by
          cases trans <;> rfl
        rw [this, hlen, ← List.countP_eq_length_filter, hn1]
        simp
  · rw [if_neg hk]
    push_neg at hk
    have hk0 : c.countP (pointInCorridor poly) = 0 := by omega
    have hfil : c.filter (pointInCorridor poly) = [] := by
      rw [List.filter_eq_nil_iff]
      intro a ha hpa
      rw [List.countP_eq_zero] at hk0
      exact hk0 a ha hpa
    refine ⟨rfl, ?_, ?_⟩
    · rw [hfil]
      have htn : takeNth n ([] : List P) = [] := by simp [takeNth]
      by_cases h1 : 1 < n
      · rw [if_pos h1, htn]
        cases trans <;> rfl
      · rw [if_neg h1]
        cases trans <;> rfl
    · rw [hk0]
      simp only [List.length_nil, Nat.zero_add]
      symm
      apply Nat.div_eq_of_lt
      omega

/-- A non-empty point list no longer than the chunk size streams as a
single chunk. -/
theorem chunkIterator_single (cs : Nat) (pts : List P) (h0 : 0 < cs)
    (hne : pts ≠ []) (hle : pts.length ≤ cs) :
    chunkIterator cs pts = [pts] := by
  rw [chunkIterator, dif_neg (by push_neg; exact ⟨hne, by omega⟩)]
  rw [List.take_of_length_le hle, List.drop_of_length_le hle]
  rw [chunkIterator]
  simp

/-- C1 (amended): downsampling restarts inside every chunk: for a file
whose points fit in a single chunk (at most 1,000,000 points) and whose
processing completes (CRS resolved, no reader error, no cancellation),
the per-file written count is `⌈k / n⌉` where `k` is the file's
in-corridor count, and the written points are every `n`-th surviving
point by position in the filtered (in-corridor) sequence — for larger
files this holds per chunk, the stride restarting at each chunk boundary
(see the counterexample). -/
theorem process_las_file_single_chunk_ceil (T : Nat → Nat → ℚ → ℚ → ℚ × ℚ)
    (file : LasFile) (corridor_polygon : Polygon) (corridor_crs : Nat)
    (n : Nat) (sig : Nat → Bool) (k : Nat) (d : Option Nat) (las_crs : Nat)
    (hn : 1 ≤ n) (hhe : file.headerError = false)
    (hcrs : resolveCrs file.crs d = some las_crs)
    (hfail : file.failAtChunk = none) (hsig : ∀ j, sig j = false)
    (hle : file.points.length ≤ chunk_size) :
    ∃ s : FileStats,
      (process_las_file T file corridor_polygon corridor_crs n sig k d).1
          = some s ∧
        s.points_within_corridor = file.points.countP (pointInCorridor
          (transform_polygon T corridor_polygon corridor_crs las_crs)) ∧
        s.points_written = (s.points_within_corridor + (n - 1)) / n ∧
        (process_las_file T file corridor_polygon corridor_crs n sig k d).2.1
          = applyTrans (if las_crs = corridor_crs then none
              else some (T las_crs corridor_crs))
            (if 1 < n
              then takeNth n (file.points.filter (pointInCorridor
                (transform_polygon T corridor_polygon corridor_crs las_crs)))
              else file.points.filter (pointInCorridor
                (transform_polygon T corridor_polygon corridor_crs las_crs))) := by
  unfold process_las_file
  rw [hhe, hcrs]
  simp only [Bool.false_eq_true, if_false]
  set poly' := transform_polygon T corridor_polygon corridor_crs las_crs
  set tr : Option (ℚ → ℚ → ℚ × ℚ) := if las_crs = corridor_crs then none
    else some (T las_crs corridor_crs)
  by_cases hpts : file.points = []
  · rw [hpts]
    have hci : chunkIterator chunk_size ([] : List P) = [] := by
      rw [chunkIterator]
      simp
    rw [hci]
    refine ⟨_, rfl, ?_, ?_, ?_⟩
    · simp
    · simp only []
      symm
      apply Nat.div_eq_of_lt
      omega
    · simp only [List.filter_nil]
      have htn : takeNth n ([] : List P) = [] := by simp [takeNth]
      by_cases h1 : 1 < n
      · rw [if_pos h1, htn]
        cases tr <;> rfl
      · rw [if_neg h1]
        cases tr <;> rfl
  · rw [chunkIterator_single chunk_size file.points (by norm_num [chunk_size])
      hpts hle]
    have hspec := processChunk_spec poly' tr n hn file.points
    unfold processChunks
    rw [hfail]
    simp only [reduceCtorEq, if_false, hsig k, Bool.false_eq_true]
    unfold processChunks
    refine ⟨_, rfl, ?_, ?_, ?_⟩
    · simp only [Nat.zero_add]
      exact hspec.1
    · simp only [Nat.zero_add]
      rw [hspec.1, hspec.2.2]
    · simp only [List.append_nil]
      exact hspec.2.1

/-- Witness for the amended C1: a 3-point single-chunk file with stride 2
against the 10×10 square corridor. -/
theorem process_las_file_single_chunk_ceil_witness :
    ∃ s : FileStats,
      (process_las_file (fun _ _ x y => (x, y))
          ⟨"f", some 0, 0, 0, 10, 10,
            [⟨5, 5, 0, 2⟩, ⟨6, 5, 0, 2⟩, ⟨7, 5, 0, 2⟩], false, none, true⟩
          [((0:ℚ), (0:ℚ)), (10, 0), (10, 10), (0, 10)] 0 2
          (fun _ => false) 0 none).1 = some s ∧
        s.points_within_corridor
          = ([⟨5, 5, 0, 2⟩, ⟨6, 5, 0, 2⟩, ⟨7, 5, 0, 2⟩] : List P).countP
              (pointInCorridor (transform_polygon (fun _ _ x y => (x, y))
                [((0:ℚ), (0:ℚ)), (10, 0), (10, 10), (0, 10)] 0 0)) ∧
        s.points_written = (s.points_within_corridor + (2 - 1)) / 2 ∧
        (process_las_file (fun _ _ x y => (x, y))
            ⟨"f", some 0, 0, 0, 10, 10,
              [⟨5, 5, 0, 2⟩, ⟨6, 5, 0, 2⟩, ⟨7, 5, 0, 2⟩], false, none, true⟩
            [((0:ℚ), (0:ℚ)), (10, 0), (10, 10), (0, 10)] 0 2
            (fun _ => false) 0 none).2.1
          = applyTrans (if (0:Nat) = 0 then none
              else some ((fun _ _ x y => ((x:ℚ), (y:ℚ))) 0 0))
            (if 1 < 2
              then takeNth 2 (([⟨5, 5, 0, 2⟩, ⟨6, 5, 0, 2⟩, ⟨7, 5, 0, 2⟩] :
                  List P).filter
                (pointInCorridor (transform_polygon (fun _ _ x y => (x, y))
                  [((0:ℚ), (0:ℚ)), (10, 0), (10, 10), (0, 10)] 0 0)))
              else ([⟨5, 5, 0, 2⟩, ⟨6, 5, 0, 2⟩, ⟨7, 5, 0, 2⟩] : List P).filter
                (pointInCorridor (transform_polygon (fun _ _ x y => (x, y))
                  [((0:ℚ), (0:ℚ)), (10, 0), (10, 10), (0, 10)] 0 0))) :=
  process_las_file_single_chunk_ceil (fun _ _ x y => (x, y))
    ⟨"f", some 0, 0, 0, 10, 10,
      [⟨5, 5, 0, 2⟩, ⟨6, 5, 0, 2⟩, ⟨7, 5, 0, 2⟩], false, none, true⟩
    [((0:ℚ), (0:ℚ)), (10, 0), (10, 10), (0, 10)] 0 2 (fun _ => false) 0 none 0
    (by decide) rfl rfl rfl (fun j => rfl) (by decide)

/-- The identity transformer family used by the concrete runs. -/
theorem transform_polygon_self (T : Nat → Nat → ℚ → ℚ → ℚ × ℚ)
    (poly : Polygon) (crs : Nat) : transform_polygon T poly crs crs = poly := by
  simp [transform_polygon]

/-- The point `(5, 5)` lies strictly inside the 10×10 square. -/
theorem in_square_55 :
    pointInCorridor [((0:ℚ), (0:ℚ)), (10, 0), (10, 10), (0, 10)]
      ⟨5, 5, 0, 0⟩ = true := by
  simp [pointInCorridor, polyContains, onBoundary, ringEdges, crossesRay,
    onSegment, List.rotate, List.countP_cons]
  norm_num

/-- The point `(5, 6)` lies strictly inside the 10×10 square. -/
theorem in_square_56 :
    pointInCorridor [((0:ℚ), (0:ℚ)), (10, 0), (10, 10), (0, 10)]
      ⟨5, 6, 0, 0⟩ = true := by
  simp [pointInCorridor, polyContains, onBoundary, ringEdges, crossesRay,
    onSegment, List.rotate, List.countP_cons]
  norm_num

/-- The point `(20, 20)` lies outside the 10×10 square. -/
theorem out_square_2020 :
    pointInCorridor [((0:ℚ), (0:ℚ)), (10, 0), (10, 10), (0, 10)]
      ⟨20, 20, 0, 0⟩ = false := by
  simp [pointInCorridor, polyContains, onBoundary, ringEdges, crossesRay,
    onSegment, List.rotate, List.countP_cons]
  norm_num

set_option maxRecDepth 2000 in
set_option maxHeartbeats 1000000 in
/-- Counterexample to C1 as stated: a file of 1,000,001 points streams as
two chunks; with exactly one in-corridor point in each chunk and stride
`n = 3`, the file writes `2` points while `⌈k / n⌉ = ⌈2 / 3⌉ = 1` — the
downsampling stride restarts at every chunk boundary, so the file-level
count is the sum of per-chunk ceilings, not the ceiling over the file. -/
theorem process_las_file_multichunk_ceil_counterexample :
    ∃ s : FileStats,
      (process_las_file (fun _ _ x y => (x, y))
          ⟨"f", some 0, 0, 0, 10, 10,
            List.replicate 999999 ⟨20, 20, 0, 0⟩ ++ [⟨5, 5, 0, 0⟩, ⟨5, 6, 0, 0⟩],
            false, none, true⟩
          [((0:ℚ), (0:ℚ)), (10, 0), (10, 10), (0, 10)] 0 3
          (fun _ => false) 0 none).1 = some s ∧
        s.points_within_corridor = 2 ∧ s.points_written = 2 ∧
        s.points_written ≠ (s.points_within_corridor + (3 - 1)) / 3 := by
  set sq : Polygon := [((0:ℚ), (0:ℚ)), (10, 0), (10, 10), (0, 10)] with hsq
  set pOut : P := ⟨20, 20, 0, 0⟩
  set pIn1 : P := ⟨5, 5, 0, 0⟩
  set pIn2 : P := ⟨5, 6, 0, 0⟩
  set L : List P := List.replicate 999999 pOut ++ [pIn1, pIn2] with hL
  have hchunks : chunkIterator chunk_size L
      = [List.replicate 999999 pOut ++ [pIn1], [pIn2]] := by
    have hlen : L.length = 1000001 := by
      rw [hL, List.length_append, List.length_replicate]
      rfl
    have hne : L ≠ [] := by
      intro h0
      rw [h0] at hlen
      cases hlen
    rw [chunkIterator, dif_neg (by push_neg; exact ⟨hne, by norm_num [chunk_size]⟩)]
    have htake : L.take chunk_size = List.replicate 999999 pOut ++ [pIn1] := by
      rw [hL, List.take_append_eq_append_take,
        List.take_of_length_le (by rw [List.length_replicate]; norm_num [chunk_size]),
        List.length_replicate]
      rfl
    have hdrop : L.drop chunk_size = [pIn2] := by
      rw [hL, List.drop_append_eq_append_drop,
        List.drop_of_length_le (by rw [List.length_replicate]; norm_num [chunk_size]),
        List.length_replicate]
      rfl
    rw [htake, hdrop,
      chunkIterator_single chunk_size [pIn2] (by norm_num [chunk_size])
        (by simp) (by simp [chunk_size])]
  unfold process_las_file
  simp only [Bool.false_eq_true, if_false]
  rw [show resolveCrs (some 0) none = some 0 from rfl]
  dsimp only
  rw [transform_polygon_self]
  rw [hchunks]
  have hspec1 := processChunk_spec sq none 3 (by omega)
    (List.replicate 999999 pOut ++ [pIn1])
  have hspec2 := processChunk_spec sq none 3 (by omega) [pIn2]
  have hin1 : pointInCorridor sq pIn1 = true := in_square_55
  have hin2 : pointInCorridor sq pIn2 = true := in_square_56
  have hout : pointInCorridor sq pOut = false := out_square_2020
  have hcount1 : (List.replicate 999999 pOut ++ [pIn1]).countP
      (pointInCorridor sq) = 1 := by
    rw [List.countP_append, List.countP_replicate, hout]
    simp [List.countP_cons, hin1]
  have hcount2 : ([pIn2] : List P).countP (pointInCorridor sq) = 1 := by
    simp [List.countP_cons, hin2]
  unfold processChunks
  simp only [reduceCtorEq, reduceIte, if_false, Bool.false_eq_true]
  unfold processChunks
  simp only [reduceCtorEq, reduceIte, if_false, Bool.false_eq_true]
  unfold processChunks
  refine ⟨_, rfl, ?_, ?_, ?_⟩ <;>
    simp only [Nat.zero_add, hspec1.1, hspec2.1, hspec1.2.2, hspec2.2.2,
      hcount1, hcount2] <;>
    try decide

/-- The artifact-existence invariant of `process_corridor`: the output
file exists after the run exactly when the writer was opened. -/
theorem outputExists_eq_reachesWriter (ext : Ext)
    (env : Env) (args : Args) (sig : Nat → Bool) :
    (process_corridor ext env args sig).outputExists
      = reachesWriter ext env args := by
  unfold process_corridor reachesWriter
  cases all_las_files env args with
  | none => rfl
  | some files =>
    dsimp only
    split_ifs <;> try rfl
    all_goals split <;> try rfl
    all_goals split_ifs <;> simp_all

/-- C6 (amended): the output artifact exists after a corridor run exactly
when the pipeline reached output creation.  Hence the no-files,
no-intersection and template-header-error failures leave no artifact
(none was ever created, and the exception handler removes any artifact on
an unrecoverable error), but a pipeline-level failure that occurs *after*
the writer opened — e.g. every selected file failing, so that zero points
are written — leaves the header-only artifact on disk. -/
theorem process_corridor_outputExists_iff_reachesWriter (ext : Ext)
    (env : Env) (args : Args) (sig : Nat → Bool) :
    (process_corridor ext env args sig).outputExists
      = reachesWriter ext env args :=
  outputExists_eq_reachesWriter ext env args sig

/-- Counterexample to C6 as stated: a run whose single selected file
fails at the first chunk read (a pipeline-level "all files fail"
failure): the orchestrator reports failure with zero points written, yet
the header-only output artifact remains on disk — the cleanup only
happens in the exception handler, which this path never reaches. -/
theorem process_corridor_all_files_fail_keeps_output :
    process_corridor
        ⟨fun _ _ x y => (x, y), fun _ _ => true, fun _ _ _ _ _ => []⟩
        ⟨[⟨"f", some 0, 0, 0, 10, 10, [⟨5, 5, 0, 0⟩], false, some 0, true⟩],
          [], fun _ => none⟩
        ⟨0, 0, 1, 0, 1, 1, 1, false, some 0, none⟩ (fun _ => false)
      = ⟨false, true, 0, []⟩ := by
  unfold process_corridor
  rw [show all_las_files
      ⟨[⟨"f", some 0, 0, 0, 10, 10, [⟨5, 5, 0, 0⟩], false, some 0, true⟩],
        [], fun _ => none⟩
      ⟨0, 0, 1, 0, 1, 1, 1, false, some 0, none⟩
      = some [⟨"f", some 0, 0, 0, 10, 10, [⟨5, 5, 0, 0⟩], false, some 0,
          true⟩] from rfl]
  dsimp only
  simp only [Option.getD_some]
  rw [show select_las_files_for_corridor (fun _ _ x y => ((x:ℚ), (y:ℚ)))
      (fun _ _ => true)
      [⟨"f", some 0, 0, 0, 10, 10, [⟨5, 5, 0, 0⟩], false, some 0, true⟩]
      [] 0 none
      = [⟨"f", some 0, 0, 0, 10, 10, [⟨5, 5, 0, 0⟩], false, some 0, true⟩]
      from rfl]
  simp only [reduceCtorEq, reduceIte, List.cons_ne_self, Bool.false_eq_true,
    false_and, and_false, if_false]
  unfold runFiles
  simp only [Bool.false_eq_true, if_false]
  unfold process_las_file
  rw [show resolveCrs (some 0) none = some 0 from rfl]
  dsimp only
  rw [chunkIterator_single chunk_size [⟨5, 5, 0, 0⟩]
    (by norm_num [chunk_size]) (by simp) (by simp [chunk_size])]
  unfold processChunks
  simp only [Option.some.injEq, if_true, if_pos rfl]
  unfold runFiles
  rfl

/-- With the cancellation signal set, the per-file loop stops at its
first poll: the counter is unchanged and nothing reaches the sink. -/
theorem runFiles_cancelled {T : Nat → Nat → ℚ → ℚ → ℚ × ℚ}
    {poly : Polygon} {crs : Nat} {n : Nat} {sig : Nat → Bool}
    {d : Option Nat} (hsig : ∀ j, sig j = true) (files : List LasFile)
    (k tw : Nat) :
    (runFiles T poly crs n sig d files k tw).1 = tw ∧
      (runFiles T poly crs n sig d files k tw).2.1 = [] := by
  cases files with
  | nil => exact ⟨rfl, rfl⟩
  | cons f fs =>
    unfold runFiles
    rw [hsig k]
    exact ⟨rfl, rfl⟩

/-- C4 (amended): with the cancellation signal set before any file is
processed, the orchestrator reports non-success, writes zero points, and
flushes nothing into the sink — but the output file is *not* removed: it
exists afterwards exactly when the run reached output creation (the
header-only artifact of a cancelled run is left on disk). -/
theorem process_corridor_cancelled_before_any_file (ext : Ext) (env : Env)
    (args : Args) (sig : Nat → Bool) (hsig : ∀ j, sig j = true) :
    (process_corridor ext env args sig).success = false ∧
      (process_corridor ext env args sig).pointsWritten = 0 ∧
      (process_corridor ext env args sig).sink = [] ∧
      (process_corridor ext env args sig).outputExists
        = reachesWriter ext env args := by
  refine ⟨?_, ?_, ?_, outputExists_eq_reachesWriter ext env args sig⟩ <;>
  · unfold process_corridor
    cases all_las_files env args with
    | none => rfl
    | some files =>
      dsimp only
      split_ifs <;> try rfl
      all_goals split <;> try rfl
      all_goals split_ifs <;> try rfl
      all_goals try rw [(runFiles_cancelled hsig _ 0 0).1]
      all_goals try rw [(runFiles_cancelled hsig _ 0 0).2]
      all_goals rfl

/-- Witness for the amended C4 at a concrete single-file run with the
signal permanently set. -/
theorem process_corridor_cancelled_before_any_file_witness :
    (process_corridor
        ⟨fun _ _ x y => (x, y), fun _ _ => true, fun _ _ _ _ _ => []⟩
        ⟨[⟨"g", some 0, 0, 0, 10, 10, [], false, none, true⟩],
          [], fun _ => none⟩
        ⟨0, 0, 1, 0, 1, 1, 1, false, some 0, none⟩ (fun _ => true)).success
        = false ∧
      (process_corridor
        ⟨fun _ _ x y => (x, y), fun _ _ => true, fun _ _ _ _ _ => []⟩
        ⟨[⟨"g", some 0, 0, 0, 10, 10, [], false, none, true⟩],
          [], fun _ => none⟩
        ⟨0, 0, 1, 0, 1, 1, 1, false, some 0, none⟩
        (fun _ => true)).pointsWritten = 0 ∧
      (process_corridor
        ⟨fun _ _ x y => (x, y), fun _ _ => true, fun _ _ _ _ _ => []⟩
        ⟨[⟨"g", some 0, 0, 0, 10, 10, [], false, none, true⟩],
          [], fun _ => none⟩
        ⟨0, 0, 1, 0, 1, 1, 1, false, some 0, none⟩ (fun _ => true)).sink
        = [] ∧
      (process_corridor
        ⟨fun _ _ x y => (x, y), fun _ _ => true, fun _ _ _ _ _ => []⟩
        ⟨[⟨"g", some 0, 0, 0, 10, 10, [], false, none, true⟩],
          [], fun _ => none⟩
        ⟨0, 0, 1, 0, 1, 1, 1, false, some 0, none⟩
        (fun _ => true)).outputExists
        = reachesWriter
            ⟨fun _ _ x y => (x, y), fun _ _ => true, fun _ _ _ _ _ => []⟩
            ⟨[⟨"g", some 0, 0, 0, 10, 10, [], false, none, true⟩],
              [], fun _ => none⟩
            ⟨0, 0, 1, 0, 1, 1, 1, false, some 0, none⟩ :=
  process_corridor_cancelled_before_any_file
    ⟨fun _ _ x y => (x, y), fun _ _ => true, fun _ _ _ _ _ => []⟩
    ⟨[⟨"g", some 0, 0, 0, 10, 10, [], false, none, true⟩],
      [], fun _ => none⟩
    ⟨0, 0, 1, 0, 1, 1, 1, false, some 0, none⟩ (fun _ => true)
    (fun j => rfl)

/-- Counterexample to C4 as stated: cancellation set before any file is
processed on a run with one selectable file — non-success and zero
points, as the claim says, but the output file is created by the writer
and never deleted, so it is present on disk, not absent. -/
theorem process_corridor_cancelled_output_remains :
    process_corridor
        ⟨fun _ _ x y => (x, y), fun _ _ => true, fun _ _ _ _ _ => []⟩
        ⟨[⟨"f", some 0, 0, 0, 10, 10, [], false, none, true⟩],
          [], fun _ => none⟩
        ⟨0, 0, 1, 0, 1, 1, 1, false, some 0, none⟩ (fun _ => true)
      = ⟨false, true, 0, []⟩ := by
  rfl

/-! ### Claim C9 -/

/-- The sort key relation `(x, y)` is transitive. -/
theorem xyLe_trans : ∀ a b c : P, xyLe a b → xyLe b c → xyLe a c := by
  intro a b c h1 h2
  unfold xyLe at *
  simp only [Bool.or_eq_true, Bool.and_eq_true, decide_eq_true_eq] at *
  rcases h1 with h1 | ⟨h1x, h1y⟩ <;> rcases h2 with h2 | ⟨h2x, h2y⟩
  · exact Or.inl (lt_trans h1 h2)
  · exact Or.inl (h2x ▸ h1)
  · exact Or.inl (h1x ▸ h2)
  · exact Or.inr ⟨h1x.trans h2x, le_trans h1y h2y⟩

/-- The sort key relation `(x, y)` is total. -/
theorem xyLe_total : ∀ a b : P, xyLe a b || xyLe b a := by
  intro a b
  unfold xyLe
  simp only [Bool.or_eq_true, Bool.and_eq_true, decide_eq_true_eq]
  rcases lt_trichotomy a.x b.x with h | h | h
  · exact Or.inl (Or.inl h)
  · rcases le_total a.y b.y with hy | hy
    · exact Or.inl (Or.inr ⟨h, hy⟩)
    · exact Or.inr (Or.inr ⟨h.symm, hy⟩)
  · exact Or.inr (Or.inl h)

/-- The scan phase with an unset cancellation signal accumulates every
point of every chunk, in stream order. -/
theorem scanChunks_of_no_cancel :
    ∀ (chunks : List (List P)) (k : Nat),
      scanChunks (fun _ => false) chunks k
        = some (chunks.flatten, k + chunks.length) := by
  intro chunks
  induction chunks with
  | nil => intro k; rfl
  | cons c cs ih =>
    intro k
    unfold scanChunks
    rw [if_neg (by simp)]
    rw [ih (k + 1)]
    simp only [Option.map_some, List.flatten_cons, List.length_cons]
    refine congrArg some (Prod.ext rfl ?_)
    simp only []
    omega

/-- The write phase with an unset cancellation signal emits one line per
record, in order. -/
theorem writeLines_of_no_cancel :
    ∀ (l : List P) (k : Nat),
      writeLines (fun _ => false) l k = some (l.map lineOf) := by
  intro l
  induction l with
  | nil => intro k; rfl
  | cons p ps ih =>
    intro k
    unfold writeLines
    rw [if_neg (by simp), ih (k + 1)]
    rfl

/-- Bucketing a list by a complete, duplicate-free list of keys and
concatenating the buckets permutes the original list. -/
theorem flatMap_filter_perm (key : P → Nat) :
    ∀ (ks : List Nat) (pts : List P), ks.Nodup →
      (∀ p ∈ pts, key p ∈ ks) →
      (ks.flatMap (fun c => pts.filter (fun p => key p == c))).Perm pts := by
  intro ks
  induction ks with
  | nil =>
    intro pts _ hcov
    have : pts = [] := by
      cases pts with
      | nil => rfl
      | cons p ps => exact absurd (hcov p (List.mem_cons_self p ps)) (by simp)
    rw [this]
    exact List.Perm.refl _
  | cons k ks ih =>
    intro pts hnd hcov
    rw [List.flatMap_cons]
    have hrest : ∀ c ∈ ks,
        pts.filter (fun p => key p == c)
          = (pts.filter (fun p => !(key p == k))).filter
              (fun p => key p == c) := by
      intro c hc
      rw [List.filter_filter]
      apply List.filter_congr
      intro p _
      by_cases hpc : key p = c
      · have hnk : ¬ key p = k := by
          intro hk
          apply (List.nodup_cons.mp hnd).1
          rw [← hk, hpc]
          exact hc
        have hck : ¬ c = k := fun h => hnk (hpc.trans h)
        simp [hpc, hnk, hck]
      · simp [hpc]
    have hflat : ks.flatMap (fun c => pts.filter (fun p => key p == c))
        = ks.flatMap (fun c => (pts.filter (fun p => !(key p == k))).filter
            (fun p => key p == c)) := by
      rw [List.flatMap_def, List.flatMap_def]
      exact congrArg List.flatten (List.map_congr_left hrest)
    rw [hflat]
    have hih := ih (pts.filter (fun p => !(key p == k)))
      (List.nodup_cons.mp hnd).2
      (by
        intro p hp
        have hmem := List.mem_of_mem_filter hp
        have hne := List.of_mem_filter hp
        have := hcov p hmem
        rcases List.mem_cons.mp this with h | h
        · rw [h] at hne
          simp at hne
        · exact h)
    exact List.Perm.trans (List.Perm.append_left _ hih)
      (List.filter_append_perm _ pts)

/-- The emitted classification codes are exactly the distinct input
codes, without duplicates. -/
theorem sortedKeys_nodup (pts : List P) : (sortedKeys pts).Nodup :=
  (List.mergeSort_perm ((pts.map P.classification).dedup) _).symm.nodup
    (List.nodup_dedup _)

/-- Every input point's classification code appears among the keys. -/
theorem mem_sortedKeys {pts : List P} {p : P} (hp : p ∈ pts) :
    p.classification ∈ sortedKeys pts :=
  (List.mergeSort_perm ((pts.map P.classification).dedup) _).mem_iff.mpr
    (List.mem_dedup.mpr (List.mem_map_of_mem P.classification hp))

/-- The emitted classification codes are in ascending order. -/
theorem sortedKeys_sorted (pts : List P) :
    (sortedKeys pts).Pairwise (fun a b : Nat => a ≤ b) := by
  have h := @List.sorted_mergeSort Nat (fun a b : Nat => decide (a ≤ b))
    (fun a b c h1 h2 => by
      simp only [decide_eq_true_eq] at *
      exact le_trans h1 h2)
    (fun a b => by
      simp only [Bool.or_eq_true, decide_eq_true_eq]
      exact le_total a b)
    ((pts.map P.classification).dedup)
  exact h.imp (fun hab => of_decide_eq_true hab)

/-- Every record of a classification bucket carries that bucket's code. -/
theorem mem_bucket_classification {pts : List P} {c : Nat} {p : P}
    (hp : p ∈ (pts.filter (fun q => q.classification == c)).mergeSort xyLe) :
    p.classification = c := by
  have hmem := (List.mergeSort_perm _ _).mem_iff.mp hp
  have := List.of_mem_filter hmem
  exact eq_of_beq this

/-- Each classification bucket is sorted by the `(x, y)` key. -/
theorem bucket_sorted (pts : List P) (c : Nat) :
    ((pts.filter (fun q => q.classification == c)).mergeSort xyLe).Pairwise
      (fun p q : P => xyLe p q = true) :=
  @List.sorted_mergeSort P xyLe
    (fun a b c h1 h2 => xyLe_trans a b c h1 h2)
    (fun a b => xyLe_total a b)
    (pts.filter (fun q => q.classification == c))

/-- C9: with an unset cancellation signal, `convert_las_to_txt` emits one
line `classification,x,y,z` (3-decimal fixed precision,
newline-terminated) per record of `sortedRecords`; that record sequence
is a permutation of the input points, its classification codes are
ascending (so each point sits in its own classification block), and each
classification block is sorted ascending by `(x, y)`. -/
theorem convert_las_to_txt_partition (chunks : List (List P)) :
    convert_las_to_txt (fun _ => false) chunks
        = some ((sortedRecords chunks.flatten).map lineOf) ∧
      (sortedRecords chunks.flatten).Perm chunks.flatten ∧
      ((sortedRecords chunks.flatten).map P.classification).Pairwise
        (fun a b : Nat => a ≤ b) ∧
      ∀ c : Nat,
        ((sortedRecords chunks.flatten).filter
            (fun p => p.classification == c)).Pairwise
          (fun p q : P => xyLe p q = true) := by
  refine ⟨?_, ?_, ?_, ?_⟩
  · unfold convert_las_to_txt
    rw [scanChunks_of_no_cancel chunks 0]
    exact writeLines_of_no_cancel _ _
  · unfold sortedRecords
    have hperm : ∀ c : Nat,
        ((chunks.flatten.filter (fun p => p.classification == c)).mergeSort
          xyLe).Perm (chunks.flatten.filter (fun p => p.classification == c)) :=
      fun c => List.mergeSort_perm _ _
    refine List.Perm.trans ?_
      (flatMap_filter_perm P.classification (sortedKeys chunks.flatten)
        chunks.flatten (sortedKeys_nodup _) (fun p hp => mem_sortedKeys hp))
    apply List.Perm.flatMap_left
    intro c _
    exact hperm c
  · unfold sortedRecords
    have hgen : ∀ ks : List Nat, List.Pairwise (fun a b : Nat => a ≤ b) ks →
        List.Pairwise (fun a b : Nat => a ≤ b)
          ((ks.flatMap fun c => (List.filter (fun p => p.classification == c)
            chunks.flatten).mergeSort xyLe).map P.classification) := by
      intro ks
      induction ks with
      | nil => intro _; simp
      | cons k ks ih =>
        intro hkeys
        rw [List.pairwise_cons] at hkeys
        rw [List.flatMap_cons, List.map_append, List.pairwise_append]
        refine ⟨?_, ih hkeys.2, ?_⟩
        · apply List.pairwise_of_forall_mem_list
          intro a ha b hb
          obtain ⟨pa, hpa, hpaa⟩ := List.mem_map.mp ha
          obtain ⟨pb, hpb, hpbb⟩ := List.mem_map.mp hb
          rw [← hpaa, ← hpbb, mem_bucket_classification hpa,
            mem_bucket_classification hpb]
        · intro a ha b hb
          obtain ⟨pa, hpa, hpaa⟩ := List.mem_map.mp ha
          obtain ⟨pb, hpb, hpbb⟩ := List.mem_map.mp hb
          obtain ⟨c, hc, hpc⟩ := List.mem_flatMap.mp hpb
          rw [← hpaa, ← hpbb, mem_bucket_classification hpa,
            mem_bucket_classification hpc]
          exact hkeys.1 c hc
    exact hgen _ (sortedKeys_sorted _)
  · intro c
    unfold sortedRecords
    rw [List.filter_flatMap]
    have hbf : ∀ k ∈ sortedKeys chunks.flatten,
        ((chunks.flatten.filter (fun q => q.classification == k)).mergeSort
            xyLe).filter (fun p => p.classification == c)
          = if k = c
            then (chunks.flatten.filter (fun q => q.classification ==
                k)).mergeSort xyLe
            else [] := by
      intro k _
      by_cases hkc : k = c
      · rw [if_pos hkc]
        apply List.filter_eq_self.mpr
        intro p hp
        rw [mem_bucket_classification hp, hkc]
        simp
      · rw [if_neg hkc]
        apply List.filter_eq_nil_iff.mpr
        intro p hp hpc
        exact hkc ((mem_bucket_classification hp).symm.trans
          (eq_of_beq hpc))
    rw [List.flatMap_congr hbf]
    have hsingle : ∀ (ks : List Nat) (f : Nat → List P), ks.Nodup →
        ks.flatMap (fun k => if k = c then f k else [])
          = if c ∈ ks then f c else [] := by
      intro ks f hndk
      induction ks with
      | nil => simp
      | cons k ks ihk =>
        rw [List.nodup_cons] at hndk
        rw [List.flatMap_cons, ihk hndk.2]
        by_cases hkc : k = c
        · rw [if_pos hkc, if_neg (hkc ▸ hndk.1), List.append_nil,
            if_pos (by rw [hkc]; exact List.mem_cons_self c ks), hkc]
        · rw [if_neg hkc, List.nil_append]
          by_cases hcm : c ∈ ks
          · rw [if_pos hcm, if_pos (List.mem_cons_of_mem k hcm)]
          · rw [if_neg hcm, if_neg (by
              intro hm
              rcases List.mem_cons.mp hm with h | h
              · exact hkc h.symm
              · exact hcm h)]
    rw [hsingle (sortedKeys chunks.flatten) _ (sortedKeys_nodup _)]
    by_cases hcm : c ∈ sortedKeys chunks.flatten
    · rw [if_pos hcm]
      exact bucket_sorted chunks.flatten c
    · rw [if_neg hcm]
      exact List.Pairwise.nil

end LasProc
